import Mathlib

/-!
# The confirmation question of the terminal wizard

A shallow embedding of `pkg/questionModel/confirmation.go`.

The widget owns a slice of child list widgets (`SingleSelectList`), a signed
focus index ranging over both of them, an allow-edit flag, the chosen answer and
a captured error.  `Update` is a pure transition function on that state; a Go
run-time panic (indexing `c.lists` out of range) is the result `none`.

The child list widget and the package-level values `confirmation.go` reads are
declared in other files of the package.  Everything the file consumes from them
is collected in the record `Pkg`, and the transition function is parametric in
it: whatever the child widget does, the equations proved for an arbitrary `Pkg`
hold.  Go's `int` is modelled by `Int`: the only arithmetic is `focusIndex--`
under the guard `focusIndex > -len`, `focusIndex++` under the guard
`focusIndex < len - 1`, `-len` and `len - 1`, none of which can leave the
64-bit range.
-/

namespace questionModel

/-! ## Messages of the host event loop -/

/-- Kind tag of a key press (`tea.KeyType`).  The widget inspects four of them;
every other kind is `KeyOther`. -/
inductive KeyType where
  | KeyCtrlC
  | KeyUp
  | KeyDown
  | KeyEnter
  | KeyOther (code : Nat)
  deriving DecidableEq, Repr

/-- A key press (`tea.KeyMsg`): its kind, the runes typed and the alt flag. -/
structure KeyMsg where
  type : KeyType
  Runes : List Char
  Alt : Bool
  deriving DecidableEq, Repr

/-- A non-nil Go `error` value. -/
structure GoError where
  text : String
  deriving DecidableEq, Repr

/-- A message of the event loop (`tea.Msg`), split the way the type switch of
`Update` splits it: a key press, a value implementing `error`, anything else. -/
inductive Msg where
  | key (k : KeyMsg)
  | error (e : GoError)
  | other (tag : Nat)
  deriving DecidableEq, Repr

/-- A command returned to the event loop (`tea.Cmd`): `nil` or `tea.Quit`. -/
inductive Cmd where
  | nil
  | Quit
  deriving DecidableEq, Repr

/-- The payload a question is initialised from (`QuestionInput`), with the
fields `confirmation.go` reads or writes. -/
structure QuestionInput where
  HeaderStrings : List String
  QuestionString : String
  Rows : List (List String)
  IndexedOptions : List String
  DefaultOption : String
  deriving DecidableEq, Repr

/-! ## What `confirmation.go` consumes from the rest of the package -/

/-- The declarations of the package (and of the list library behind
`SingleSelectList.list`) that `confirmation.go` uses and that live in other
files.  `L` is the state of one child list widget.

* `InitializeModel input` is a zero-value `SingleSelectList` after
  `InitializeModel(&input)`;
* `Items l` is `len(l.list.Items())`;
* `Select i l` is `l` after `l.list.Select(i)`;
* `Update msg l` is `l` after `l.Update(msg)` (the returned model and command
  are dropped by the caller);
* `selectItem l` is `l` after `l.selectItem()`;
* `GetChoice l` is `l.GetChoice()`;
* `View l` is `l.View()`. -/
structure Pkg (L : Type) where
  InitializeModel : QuestionInput → L
  Items : L → Nat
  Select : Int → L → L
  Update : Msg → L → L
  selectItem : L → L
  GetChoice : L → String
  View : L → String
  exitError : GoError
  yesNoOptions : List String
  yesNoData : List (List String)
  ResponseNo : String
  CreateSingleLineRows : List (List String) → List (List String)

/-! ## The widget -/

/-- State of the confirmation question (`type Confirmation struct`). -/
structure Confirmation (L : Type) where
  lists : List L
  choice : String
  focusIndex : Int
  allowEdit : Bool
  err : Option GoError

variable {L : Type}

/-- The zero value of the struct, as `&Confirmation{}` builds it. -/
def Confirmation.zero : Confirmation L :=
  { lists := [], choice := "", focusIndex := 0, allowEdit := false, err := none }

/-- `InitializeModel`: builds the summary list (selection cleared) and the
yes/no list, appends them in that order and focuses index 1. -/
def Confirmation.InitializeModel (p : Pkg L) (c : Confirmation L) (input : QuestionInput) :
    Confirmation L :=
  let configList := p.InitializeModel
    { HeaderStrings := ["Configurations", "Values"]
      QuestionString :=
        "Please confirm if you would like to launch instance with following options:"
      Rows := input.Rows
      IndexedOptions := input.IndexedOptions
      DefaultOption := "" }
  let configList := p.Select (-1) configList
  let yesNoList := p.InitializeModel
    { HeaderStrings := []
      QuestionString := ""
      Rows := p.CreateSingleLineRows p.yesNoData
      IndexedOptions := p.yesNoOptions
      DefaultOption := p.ResponseNo }
  { c with lists := c.lists ++ [configList, yesNoList], focusIndex := 1 }

/-- `Init`: no start-up command. -/
def Confirmation.Init (_c : Confirmation L) : Cmd := Cmd.nil

/-- The tail of `Update` (the `if` after the type switch): hand the message to
the summary list when the focus index is negative and editing is allowed, to the
yes/no list otherwise, and return no command. -/
def Confirmation.forward (p : Pkg L) (c : Confirmation L) (msg : Msg) :
    Option (Confirmation L × Cmd) :=
  if c.focusIndex < 0 ∧ c.allowEdit = true then
    match c.lists[0]? with
    | none => none
    | some l0 => some ({ c with lists := c.lists.set 0 (p.Update msg l0) }, Cmd.nil)
  else
    match c.lists[1]? with
    | none => none
    | some l1 => some ({ c with lists := c.lists.set 1 (p.Update msg l1) }, Cmd.nil)

/-- `Update`: one message of the event loop. -/
def Confirmation.Update (p : Pkg L) (c : Confirmation L) (msg : Msg) :
    Option (Confirmation L × Cmd) :=
  match msg with
  | Msg.key k =>
    match k.type with
    | KeyType.KeyCtrlC => some ({ c with err := some p.exitError }, Cmd.Quit)
    | KeyType.KeyUp =>
      match c.lists[0]? with
      | none => none
      | some l0 =>
        let c1 : Confirmation L :=
          if c.focusIndex > -(p.Items l0 : Int) ∧ (c.allowEdit = true ∨ c.focusIndex > 0) then
            { c with focusIndex := c.focusIndex - 1 }
          else c
        if c1.focusIndex = -1 then
          match c1.lists[1]? with
          | none => none
          | some l1 =>
            Confirmation.forward p
              { c1 with
                lists := (c1.lists.set 0 (p.Select (p.Items l0 : Int) l0)).set 1
                  (p.Select c1.focusIndex l1) }
              msg
        else Confirmation.forward p c1 msg
    | KeyType.KeyDown =>
      match c.lists[1]? with
      | none => none
      | some l1 =>
        let c1 : Confirmation L :=
          if c.focusIndex < (p.Items l1 : Int) - 1 then
            { c with focusIndex := c.focusIndex + 1 }
          else c
        if c1.focusIndex = 0 then
          match c1.lists[0]? with
          | none => none
          | some l0 =>
            some ({ c1 with
                    lists := (c1.lists.set 0 (p.Select (-1) l0)).set 1
                      (p.Select c1.focusIndex l1) },
                  Cmd.nil)
        else Confirmation.forward p c1 msg
    | KeyType.KeyEnter =>
      if c.focusIndex < 0 then
        match c.lists[0]? with
        | none => none
        | some l0 =>
          let l0 := p.selectItem l0
          some ({ c with lists := c.lists.set 0 l0, choice := p.GetChoice l0 }, Cmd.Quit)
      else
        match c.lists[1]? with
        | none => none
        | some l1 =>
          let l1 := p.selectItem l1
          some ({ c with lists := c.lists.set 1 l1, choice := p.GetChoice l1 }, Cmd.Quit)
    | KeyType.KeyOther _ => Confirmation.forward p c msg
  | Msg.error e => some ({ c with err := some e }, Cmd.Quit)
  | Msg.other _ => Confirmation.forward p c msg

/-- `View`: the summary list's view, a newline, the yes/no list's view. -/
def Confirmation.View (p : Pkg L) (c : Confirmation L) : Option String :=
  match c.lists[0]?, c.lists[1]? with
  | some l0, some l1 => some (p.View l0 ++ "\n" ++ p.View l1)
  | _, _ => none

/-- `GetChoice`: the chosen answer. -/
def Confirmation.GetChoice (c : Confirmation L) : String := c.choice

/-- `getError`: the captured error, `none` for Go's `nil`. -/
def Confirmation.getError (c : Confirmation L) : Option GoError := c.err

/-- `SetAllowEdit`: toggles whether focus may enter the summary list. -/
def Confirmation.SetAllowEdit (c : Confirmation L) (allowEdit : Bool) : Confirmation L :=
  { c with allowEdit := allowEdit }

/-! ## Driving the widget with a sequence of events -/

/-- What can happen to the widget between its initialisation and its end: the
event loop delivers a message, or the owner calls `SetAllowEdit`. -/
inductive Event where
  | msg (m : Msg)
  | setAllowEdit (b : Bool)
  deriving DecidableEq, Repr

/-- One event applied to the widget; the command `Update` returns is dropped. -/
def Confirmation.step (p : Pkg L) (c : Confirmation L) : Event → Option (Confirmation L)
  | Event.msg m => (Confirmation.Update p c m).map Prod.fst
  | Event.setAllowEdit b => some (c.SetAllowEdit b)

/-- A finite sequence of events applied from left to right.  The run does not
stop at a quit command, so it covers every sequence the event loop can deliver
and more. -/
def Confirmation.run (p : Pkg L) (c : Confirmation L) : List Event → Option (Confirmation L)
  | [] => some c
  | e :: es =>
    match Confirmation.step p c e with
    | none => none
    | some c1 => Confirmation.run p c1 es

/-- The key presses named in the properties, with no runes and no alt flag. -/
def keyUp : Msg := Msg.key { type := KeyType.KeyUp, Runes := [], Alt := false }

/-- Down arrow. -/
def keyDown : Msg := Msg.key { type := KeyType.KeyDown, Runes := [], Alt := false }

/-- Enter. -/
def keyEnter : Msg := Msg.key { type := KeyType.KeyEnter, Runes := [], Alt := false }

/-- Interrupt (Ctrl-C). -/
def keyCtrlC : Msg := Msg.key { type := KeyType.KeyCtrlC, Runes := [], Alt := false }

/-! ## The child list widget -/

/-- Modelled from the spec: the child list widget `SingleSelectList`, declared
in another file of the package (with the list library behind it).  The spec
gives it a row count, a highlighted row set by `select(index)` (`-1` for none),
a committed choice, and a commit action that makes the highlighted row the
chosen answer.  `items` holds the value each row commits. -/
structure SingleSelectList where
  items : List String
  cursor : Int
  choice : String
  deriving DecidableEq, Repr

/-- Modelled from the spec: `SingleSelectList.InitializeModel`, which is
declared in another file.  The rows commit the payload's indexed options, the
row of the default option is highlighted (the first row when the payload names
none), and nothing is chosen yet. -/
def SingleSelectList.InitializeModel (input : QuestionInput) : SingleSelectList :=
  { items := input.IndexedOptions
    cursor :=
      if input.DefaultOption ∈ input.IndexedOptions then
        (input.IndexedOptions.indexOf input.DefaultOption : Nat)
      else 0
    choice := "" }

/-- Modelled from the spec: `list.Select(index)`, which sets or clears (`-1`)
the highlighted row. -/
def SingleSelectList.Select (i : Int) (l : SingleSelectList) : SingleSelectList :=
  { l with cursor := i }

/-- Modelled from the spec: the child's per-event update, declared in another
file.  An Up press moves the highlight one row up when a row lies above it, a
Down press one row down when a row lies below it; any other message leaves
highlight, rows and choice alone. -/
def SingleSelectList.Update (msg : Msg) (l : SingleSelectList) : SingleSelectList :=
  match msg with
  | Msg.key k =>
    match k.type with
    | KeyType.KeyUp => if 0 < l.cursor then { l with cursor := l.cursor - 1 } else l
    | KeyType.KeyDown =>
      if l.cursor + 1 < (l.items.length : Int) then { l with cursor := l.cursor + 1 } else l
    | _ => l
  | _ => l

/-- Modelled from the spec: the commit action `selectItem`, declared in another
file.  The highlighted row becomes the chosen answer; with no row highlighted
the choice is left as it was. -/
def SingleSelectList.selectItem (l : SingleSelectList) : SingleSelectList :=
  if 0 ≤ l.cursor then
    match l.items[l.cursor.toNat]? with
    | some v => { l with choice := v }
    | none => l
  else l

/-- Modelled from the spec: the accessor `SingleSelectList.GetChoice`, declared
in another file. -/
def SingleSelectList.GetChoice (l : SingleSelectList) : String := l.choice

/-- Modelled from the spec: the package-level values and the child widget that
`confirmation.go` reads from other files: the two answers "Yes" and "No" with
"No" as the default, one single-line row per answer, and the cancellation error
recorded on an interrupt.  Rendering is outside the spec, so `View` only names
the highlighted row. -/
def specPkg : Pkg SingleSelectList where
  InitializeModel := SingleSelectList.InitializeModel
  Items := fun l => l.items.length
  Select := SingleSelectList.Select
  Update := SingleSelectList.Update
  selectItem := SingleSelectList.selectItem
  GetChoice := SingleSelectList.GetChoice
  View := fun l => toString l.cursor
  exitError := { text := "cancelled" }
  yesNoOptions := ["Yes", "No"]
  yesNoData := [["Yes"], ["No"]]
  ResponseNo := "No"
  CreateSingleLineRows := fun data => data

/-! ## Predicates used in the statements -/

/-- The kind of key a message carries, when it is a key press. -/
def Msg.keyKind : Msg → Option KeyType
  | Msg.key k => some k.type
  | _ => none

/-- The child widget never changes its number of rows: `Select`, `Update` and
`selectItem` leave `Items` as it is. -/
def Pkg.KeepsItems (p : Pkg L) : Prop :=
  (∀ i l, p.Items (p.Select i l) = p.Items l) ∧
  (∀ m l, p.Items (p.Update m l) = p.Items l) ∧
  (∀ l, p.Items (p.selectItem l) = p.Items l)

/-! ## Equations for `Update` on a widget holding both lists -/

theorem Update_ctrlC (p : Pkg L) (c : Confirmation L) (r : List Char) (a : Bool) :
    Confirmation.Update p c (Msg.key ⟨KeyType.KeyCtrlC, r, a⟩) =
      some ({ c with err := some p.exitError }, Cmd.Quit) := rfl

theorem Update_error (p : Pkg L) (c : Confirmation L) (e : GoError) :
    Confirmation.Update p c (Msg.error e) = some ({ c with err := some e }, Cmd.Quit) := rfl

theorem Update_other (p : Pkg L) (c : Confirmation L) (n : Nat) :
    Confirmation.Update p c (Msg.other n) = Confirmation.forward p c (Msg.other n) := rfl

theorem Update_keyOther (p : Pkg L) (c : Confirmation L) (code : Nat) (r : List Char)
    (a : Bool) :
    Confirmation.Update p c (Msg.key ⟨KeyType.KeyOther code, r, a⟩) =
      Confirmation.forward p c (Msg.key ⟨KeyType.KeyOther code, r, a⟩) := rfl

theorem forward_eq (p : Pkg L) (l0 l1 : L) (rest : List L) (ch : String) (fi : Int)
    (ae : Bool) (err : Option GoError) (msg : Msg) :
    Confirmation.forward p ⟨l0 :: l1 :: rest, ch, fi, ae, err⟩ msg =
      some (⟨if fi < 0 ∧ ae = true then p.Update msg l0 :: l1 :: rest
              else l0 :: p.Update msg l1 :: rest, ch, fi, ae, err⟩, Cmd.nil) := by
  unfold Confirmation.forward
  by_cases h : fi < 0 ∧ ae = true
  · simp [h]
  · simp [h]

theorem Update_up (p : Pkg L) (l0 l1 : L) (rest : List L) (ch : String) (fi : Int)
    (ae : Bool) (err : Option GoError) (r : List Char) (a : Bool) :
    Confirmation.Update p ⟨l0 :: l1 :: rest, ch, fi, ae, err⟩ (Msg.key ⟨KeyType.KeyUp, r, a⟩) =
      Confirmation.forward p
        (if fi > -(p.Items l0 : Int) ∧ (ae = true ∨ fi > 0) then
          (if fi - 1 = -1 then
            ⟨p.Select (p.Items l0 : Int) l0 :: p.Select (-1) l1 :: rest, ch, fi - 1, ae, err⟩
           else ⟨l0 :: l1 :: rest, ch, fi - 1, ae, err⟩)
         else
          (if fi = -1 then
            ⟨p.Select (p.Items l0 : Int) l0 :: p.Select (-1) l1 :: rest, ch, fi, ae, err⟩
           else ⟨l0 :: l1 :: rest, ch, fi, ae, err⟩))
        (Msg.key ⟨KeyType.KeyUp, r, a⟩) := by
  simp only [Confirmation.Update, List.getElem?_cons_zero, List.getElem?_cons_succ,
    List.set_cons_zero, List.set_cons_succ]
  split_ifs <;> simp_all

theorem Update_down (p : Pkg L) (l0 l1 : L) (rest : List L) (ch : String) (fi : Int)
    (ae : Bool) (err : Option GoError) (r : List Char) (a : Bool) :
    Confirmation.Update p ⟨l0 :: l1 :: rest, ch, fi, ae, err⟩
        (Msg.key ⟨KeyType.KeyDown, r, a⟩) =
      (if fi < (p.Items l1 : Int) - 1 then
        (if fi + 1 = 0 then
          some (⟨p.Select (-1) l0 :: p.Select 0 l1 :: rest, ch, fi + 1, ae, err⟩, Cmd.nil)
         else
          Confirmation.forward p ⟨l0 :: l1 :: rest, ch, fi + 1, ae, err⟩
            (Msg.key ⟨KeyType.KeyDown, r, a⟩))
       else
        (if fi = 0 then
          some (⟨p.Select (-1) l0 :: p.Select 0 l1 :: rest, ch, fi, ae, err⟩, Cmd.nil)
         else
          Confirmation.forward p ⟨l0 :: l1 :: rest, ch, fi, ae, err⟩
            (Msg.key ⟨KeyType.KeyDown, r, a⟩))) := by
  simp only [Confirmation.Update, List.getElem?_cons_zero, List.getElem?_cons_succ,
    List.set_cons_zero, List.set_cons_succ]
  split_ifs <;> simp_all

theorem Update_enter (p : Pkg L) (l0 l1 : L) (rest : List L) (ch : String) (fi : Int)
    (ae : Bool) (err : Option GoError) (r : List Char) (a : Bool) :
    Confirmation.Update p ⟨l0 :: l1 :: rest, ch, fi, ae, err⟩
        (Msg.key ⟨KeyType.KeyEnter, r, a⟩) =
      (if fi < 0 then
        some (⟨p.selectItem l0 :: l1 :: rest, p.GetChoice (p.selectItem l0), fi, ae, err⟩,
          Cmd.Quit)
       else
        some (⟨l0 :: p.selectItem l1 :: rest, p.GetChoice (p.selectItem l1), fi, ae, err⟩,
          Cmd.Quit)) := by
  simp only [Confirmation.Update, List.getElem?_cons_zero, List.getElem?_cons_succ,
    List.set_cons_zero, List.set_cons_succ]

/-- On a widget holding both lists `Update` returns, the two lists stay in
place, the allow-edit flag is untouched, and the focus index moves by at most
one step inside the bounds the two guards check. -/
theorem Update_shape (p : Pkg L) (l0 l1 : L) (rest : List L) (ch : String) (fi : Int)
    (ae : Bool) (err : Option GoError) (msg : Msg) :
    ∃ m0 m1 ch' fi' err' cmd,
      Confirmation.Update p ⟨l0 :: l1 :: rest, ch, fi, ae, err⟩ msg =
        some (⟨m0 :: m1 :: rest, ch', fi', ae, err'⟩, cmd) ∧
      (p.KeepsItems → p.Items m0 = p.Items l0 ∧ p.Items m1 = p.Items l1) ∧
      (-(p.Items l0 : Int) ≤ fi → -(p.Items l0 : Int) ≤ fi') ∧
      (fi ≤ (p.Items l1 : Int) - 1 → fi' ≤ (p.Items l1 : Int) - 1) ∧
      (ae = false → 0 ≤ fi → 0 ≤ fi') := by
  rcases msg with ⟨t, r, a⟩ | e | n
  · cases t with
    | KeyCtrlC => exact ⟨l0, l1, ch, fi, _, _, Update_ctrlC p _ r a, fun _ => ⟨rfl, rfl⟩,
        id, id, fun _ => id⟩
    | KeyUp =>
      rw [Update_up]
      split_ifs with h1 h2 h3
      all_goals rw [forward_eq]
      all_goals split_ifs with h4
      all_goals refine ⟨_, _, _, _, _, _, rfl, ?_, ?_, ?_, ?_⟩
      all_goals first
        | (rintro ⟨hs, hu, hc⟩; simp only [hs, hu, hc, and_self])
        | (intros; subst_vars; simp_all; done)
        | (intros; subst_vars; simp_all; omega)
    | KeyDown =>
      rw [Update_down]
      split_ifs with h1 h2 h3
      all_goals try rw [forward_eq]
      all_goals try split_ifs with h4
      all_goals refine ⟨_, _, _, _, _, _, rfl, ?_, ?_, ?_, ?_⟩
      all_goals first
        | (rintro ⟨hs, hu, hc⟩; simp only [hs, hu, hc, and_self])
        | (intros; omega)
    | KeyEnter =>
      rw [Update_enter]
      split_ifs with h1
      all_goals refine ⟨_, _, _, _, _, _, rfl, ?_, ?_, ?_, ?_⟩
      all_goals first
        | (rintro ⟨hs, hu, hc⟩; simp only [hs, hu, hc, and_self])
        | (intros; omega)
    | KeyOther code =>
      rw [Update_keyOther, forward_eq]
      split_ifs with h4
      all_goals refine ⟨_, _, _, _, _, _, rfl, ?_, ?_, ?_, ?_⟩
      all_goals first
        | (rintro ⟨hs, hu, hc⟩; simp only [hs, hu, hc, and_self])
        | (intros; omega)
  · exact ⟨l0, l1, ch, fi, _, _, Update_error p _ e, fun _ => ⟨rfl, rfl⟩, id, id, fun _ => id⟩
  · rw [Update_other, forward_eq]
    split_ifs with h4
    all_goals refine ⟨_, _, _, _, _, _, rfl, ?_, ?_, ?_, ?_⟩
    all_goals first
      | (rintro ⟨hs, hu, hc⟩; simp only [hs, hu, hc, and_self])
      | (intros; omega)

/-- The focus index an Up press leaves, on a widget holding both lists. -/
theorem Update_up_focus (p : Pkg L) (l0 l1 : L) (rest : List L) (ch : String) (fi : Int)
    (ae : Bool) (err : Option GoError) (r : List Char) (a : Bool) :
    ∃ m0 m1 cmd,
      Confirmation.Update p ⟨l0 :: l1 :: rest, ch, fi, ae, err⟩
          (Msg.key ⟨KeyType.KeyUp, r, a⟩) =
        some (⟨m0 :: m1 :: rest, ch,
          if fi > -(p.Items l0 : Int) ∧ (ae = true ∨ fi > 0) then fi - 1 else fi,
          ae, err⟩, cmd) ∧
      (p.KeepsItems → p.Items m0 = p.Items l0 ∧ p.Items m1 = p.Items l1) := by
  rw [Update_up]
  split_ifs with h1 h2 h3
  all_goals rw [forward_eq]
  all_goals split_ifs with h4
  all_goals refine ⟨_, _, _, rfl, ?_⟩
  all_goals (rintro ⟨hs, hu, hc⟩; simp only [hs, hu, hc, and_self])

/-- The focus index a Down press leaves, on a widget holding both lists. -/
theorem Update_down_focus (p : Pkg L) (l0 l1 : L) (rest : List L) (ch : String) (fi : Int)
    (ae : Bool) (err : Option GoError) (r : List Char) (a : Bool) :
    ∃ m0 m1 cmd,
      Confirmation.Update p ⟨l0 :: l1 :: rest, ch, fi, ae, err⟩
          (Msg.key ⟨KeyType.KeyDown, r, a⟩) =
        some (⟨m0 :: m1 :: rest, ch,
          if fi < (p.Items l1 : Int) - 1 then fi + 1 else fi, ae, err⟩, cmd) ∧
      (p.KeepsItems → p.Items m0 = p.Items l0 ∧ p.Items m1 = p.Items l1) := by
  rw [Update_down]
  split_ifs with h1 h2 h3
  all_goals try rw [forward_eq]
  all_goals try split_ifs with h4
  all_goals refine ⟨_, _, _, rfl, ?_⟩
  all_goals (rintro ⟨hs, hu, hc⟩; simp only [hs, hu, hc, and_self])

/-! ## Facts about the modelled child widget -/

/-- The modelled child widget keeps its rows under every operation. -/
theorem specPkg_keepsItems : specPkg.KeepsItems := by
  refine ⟨fun i l => rfl, fun m l => ?_, fun l => ?_⟩
  · show (SingleSelectList.Update m l).items.length = l.items.length
    unfold SingleSelectList.Update
    split
    · split <;> (try split_ifs) <;> rfl
    · rfl
  · show (SingleSelectList.selectItem l).items.length = l.items.length
    unfold SingleSelectList.selectItem
    split_ifs
    · split <;> rfl
    · rfl

/-- The row a list of at least one row has at index `length - 1` is its last
row. -/
theorem getElem?_length_sub_one (xs : List String) (hne : xs ≠ []) :
    xs[((xs.length : Int) - 1).toNat]? = xs.getLast? := by
  have hpos : 0 < xs.length := List.length_pos.mpr hne
  have hidx : ((xs.length : Int) - 1).toNat = xs.length - 1 := by omega
  rw [hidx, List.getLast?_eq_getElem?]

/-! ## Runs -/

/-- Invariants of a run: a property of the widget that every permitted event
preserves holds after every finite sequence of permitted events, and the run
never stops on a panic. -/
theorem run_preserves (p : Pkg L) (ok : Event → Prop) (Inv : Confirmation L → Prop)
    (hstep : ∀ c e, ok e → Inv c → ∃ c', Confirmation.step p c e = some c' ∧ Inv c') :
    ∀ (evs : List Event) (c : Confirmation L), (∀ e ∈ evs, ok e) → Inv c →
      ∃ c', Confirmation.run p c evs = some c' ∧ Inv c' := by
  intro evs
  induction evs with
  | nil => intro c _ hc; exact ⟨c, rfl, hc⟩
  | cons e es ih =>
    intro c hok hc
    obtain ⟨c1, h1, hi1⟩ := hstep c e (hok e (List.mem_cons_self e es)) hc
    obtain ⟨c2, h2, hi2⟩ := ih c1 (fun x hx => hok x (List.mem_cons_of_mem e hx)) hi1
    refine ⟨c2, ?_, hi2⟩
    simp only [Confirmation.run, h1, h2]

/-! ## The claims -/

/-- C1. On an Enter key press `Update` returns the quit command.  With a
non-negative focus index `selectItem` runs on the yes/no list (`lists[1]`) only
and the recorded choice is that list's committed choice; with a negative focus
index `selectItem` runs on the summary list (`lists[0]`) only and the recorded
choice is that list's committed choice.  Nothing else of the state changes. -/
theorem enter_commits_focused_list (p : Pkg L) (c : Confirmation L) (l0 l1 : L)
    (rest : List L) (r : List Char) (a : Bool) (h : c.lists = l0 :: l1 :: rest) :
    ∃ c', Confirmation.Update p c (Msg.key ⟨KeyType.KeyEnter, r, a⟩) = some (c', Cmd.Quit) ∧
      c'.focusIndex = c.focusIndex ∧ c'.allowEdit = c.allowEdit ∧ c'.err = c.err ∧
      (0 ≤ c.focusIndex →
        c'.lists = l0 :: p.selectItem l1 :: rest ∧
        c'.GetChoice = p.GetChoice (p.selectItem l1)) ∧
      (c.focusIndex < 0 →
        c'.lists = p.selectItem l0 :: l1 :: rest ∧
        c'.GetChoice = p.GetChoice (p.selectItem l0)) := by
  rcases c with ⟨lists, ch, fi, ae, err⟩
  simp only at h
  subst h
  rw [Update_enter]
  by_cases hfi : fi < 0
  · rw [if_pos hfi]
    refine ⟨_, rfl, rfl, rfl, rfl, fun h0 => ?_, fun _ => ⟨rfl, rfl⟩⟩
    exact absurd hfi (not_lt.mpr h0)
  · rw [if_neg hfi]
    exact ⟨_, rfl, rfl, rfl, rfl, fun _ => ⟨rfl, rfl⟩, fun h0 => absurd h0 hfi⟩

/-- C1, at an instance: the initialised widget with a three-row summary and
focus on the yes/no list. -/
theorem enter_commits_focused_list_witness :
    ∃ c', Confirmation.Update specPkg
        ⟨[⟨["a", "b", "c"], -1, ""⟩, ⟨["Yes", "No"], 1, ""⟩], "", 1, false, none⟩
        (Msg.key ⟨KeyType.KeyEnter, [], false⟩) = some (c', Cmd.Quit) ∧
      c'.focusIndex = 1 ∧ c'.allowEdit = false ∧ c'.err = none ∧
      ((0 : Int) ≤ 1 →
        c'.lists = [⟨["a", "b", "c"], -1, ""⟩,
            specPkg.selectItem ⟨["Yes", "No"], 1, ""⟩] ∧
        c'.GetChoice = specPkg.GetChoice (specPkg.selectItem ⟨["Yes", "No"], 1, ""⟩)) ∧
      ((1 : Int) < 0 →
        c'.lists = [specPkg.selectItem ⟨["a", "b", "c"], -1, ""⟩, ⟨["Yes", "No"], 1, ""⟩] ∧
        c'.GetChoice = specPkg.GetChoice (specPkg.selectItem ⟨["a", "b", "c"], -1, ""⟩)) :=
  enter_commits_focused_list specPkg
    ⟨[⟨["a", "b", "c"], -1, ""⟩, ⟨["Yes", "No"], 1, ""⟩], "", 1, false, none⟩
    ⟨["a", "b", "c"], -1, ""⟩ ⟨["Yes", "No"], 1, ""⟩ [] [] false rfl

/-- C2. Focus-index range invariant.  With a summary list of `N` rows and a
yes/no list of `M` rows, every message (whatever the allow-edit flag) takes a
focus index in `[-N, M-1]` to a focus index in `[-N, M-1]`, and `Update`
returns.  Hence, when the child lists keep their row counts and the yes/no list
has two rows, every finite sequence of messages and `SetAllowEdit` calls from
focus index 1 runs to the end and leaves the focus index in `[-N, 1]`. -/
theorem focus_index_range_invariant (p : Pkg L) (l0 l1 : L) (rest : List L) :
    (∀ (c : Confirmation L) (msg : Msg), c.lists = l0 :: l1 :: rest →
      -(p.Items l0 : Int) ≤ c.focusIndex → c.focusIndex ≤ (p.Items l1 : Int) - 1 →
      ∃ c' cmd, Confirmation.Update p c msg = some (c', cmd) ∧
        -(p.Items l0 : Int) ≤ c'.focusIndex ∧ c'.focusIndex ≤ (p.Items l1 : Int) - 1) ∧
    (p.KeepsItems → p.Items l1 = 2 →
      ∀ (ch : String) (ae : Bool) (err : Option GoError) (evs : List Event),
      ∃ c', Confirmation.run p ⟨l0 :: l1 :: rest, ch, 1, ae, err⟩ evs = some c' ∧
        -(p.Items l0 : Int) ≤ c'.focusIndex ∧ c'.focusIndex ≤ 1) := by
  constructor
  · rintro ⟨lists, ch, fi, ae, err⟩ msg h hlo hhi
    simp only at h hlo hhi
    subst h
    obtain ⟨m0, m1, ch', fi', err', cmd, hU, -, h1, h2, -⟩ :=
      Update_shape p l0 l1 rest ch fi ae err msg
    exact ⟨_, _, hU, h1 hlo, h2 hhi⟩
  · intro hk hM ch ae err evs
    have key := run_preserves p (fun _ => True)
      (fun c => ∃ m0 m1, c.lists = m0 :: m1 :: rest ∧ p.Items m0 = p.Items l0 ∧
        p.Items m1 = p.Items l1 ∧ -(p.Items l0 : Int) ≤ c.focusIndex ∧
        c.focusIndex ≤ (p.Items l1 : Int) - 1)
      (by
        rintro ⟨lists, ch, fi, ae, err⟩ e - ⟨m0, m1, hl, e0, e1, hlo, hhi⟩
        simp only at hl hlo hhi
        subst hl
        cases e with
        | msg m =>
          obtain ⟨n0, n1, ch', fi', err', cmd, hU, hit, h1, h2, -⟩ :=
            Update_shape p m0 m1 rest ch fi ae err m
          refine ⟨⟨n0 :: n1 :: rest, ch', fi', ae, err'⟩,
            by simp only [Confirmation.step, hU, Option.map_some'], n0, n1, rfl, ?_⟩
          obtain ⟨i0, i1⟩ := hit hk
          rw [e0] at i0 h1
          rw [e1] at i1 h2
          exact ⟨i0, i1, h1 hlo, h2 hhi⟩
        | setAllowEdit b =>
          exact ⟨_, rfl, m0, m1, rfl, e0, e1, hlo, hhi⟩)
      evs ⟨l0 :: l1 :: rest, ch, 1, ae, err⟩ (fun _ _ => trivial)
      ⟨l0, l1, rfl, rfl, rfl, by simp only; omega, by simp only; omega⟩
    obtain ⟨c', hrun, -, -, -, -, -, hlo, hhi⟩ := key
    exact ⟨c', hrun, hlo, by omega⟩

/-- C2, at an instance: a three-row summary, one Up press at the bottom of the
range, and the run Up, allow edit, Up, Up, Up, Up, Down from the initial
focus. -/
theorem focus_index_range_invariant_witness :
    (∃ c' cmd, Confirmation.Update specPkg
        ⟨[⟨["a", "b", "c"], 0, ""⟩, ⟨["Yes", "No"], -1, ""⟩], "", -3, true, none⟩ keyUp =
          some (c', cmd) ∧ -3 ≤ c'.focusIndex ∧ c'.focusIndex ≤ 1) ∧
    (∃ c', Confirmation.run specPkg
        ⟨[⟨["a", "b", "c"], -1, ""⟩, ⟨["Yes", "No"], 1, ""⟩], "", 1, false, none⟩
        [Event.msg keyUp, Event.setAllowEdit true, Event.msg keyUp, Event.msg keyUp,
          Event.msg keyUp, Event.msg keyUp, Event.msg keyDown] = some c' ∧
      -3 ≤ c'.focusIndex ∧ c'.focusIndex ≤ 1) :=
  ⟨(focus_index_range_invariant specPkg ⟨["a", "b", "c"], 0, ""⟩ ⟨["Yes", "No"], -1, ""⟩
      []).1 ⟨[⟨["a", "b", "c"], 0, ""⟩, ⟨["Yes", "No"], -1, ""⟩], "", -3, true, none⟩ keyUp
      rfl (by decide) (by decide),
   (focus_index_range_invariant specPkg ⟨["a", "b", "c"], -1, ""⟩ ⟨["Yes", "No"], 1, ""⟩
      []).2 specPkg_keepsItems rfl "" false none _⟩

/-- C3. With editing not allowed, a non-negative focus index stays non-negative
under every message, and `Update` returns.  Hence from the initial focus, as
long as `SetAllowEdit(true)` is never called, every finite sequence of messages
runs to the end with the focus index still non-negative: focus never enters the
summary list. -/
theorem no_edit_focus_stays_nonneg (p : Pkg L) (l0 l1 : L) (rest : List L) :
    (∀ (c : Confirmation L) (msg : Msg), c.lists = l0 :: l1 :: rest →
      c.allowEdit = false → 0 ≤ c.focusIndex →
      ∃ c' cmd, Confirmation.Update p c msg = some (c', cmd) ∧ 0 ≤ c'.focusIndex) ∧
    (∀ (ch : String) (err : Option GoError) (evs : List Event),
      (∀ e ∈ evs, e ≠ Event.setAllowEdit true) →
      ∃ c', Confirmation.run p ⟨l0 :: l1 :: rest, ch, 1, false, err⟩ evs = some c' ∧
        c'.allowEdit = false ∧ 0 ≤ c'.focusIndex) := by
  constructor
  · rintro ⟨lists, ch, fi, ae, err⟩ msg h hae hfi
    simp only at h hae hfi
    subst h
    obtain ⟨m0, m1, ch', fi', err', cmd, hU, -, -, -, h3⟩ :=
      Update_shape p l0 l1 rest ch fi ae err msg
    exact ⟨_, _, hU, h3 hae hfi⟩
  · intro ch err evs hev
    have key := run_preserves p (fun e => e ≠ Event.setAllowEdit true)
      (fun c => ∃ m0 m1, c.lists = m0 :: m1 :: rest ∧ c.allowEdit = false ∧ 0 ≤ c.focusIndex)
      (by
        rintro ⟨lists, ch, fi, ae, err⟩ e he ⟨m0, m1, hl, hae, hfi⟩
        simp only at hl hae hfi
        subst hl
        cases e with
        | msg m =>
          obtain ⟨n0, n1, ch', fi', err', cmd, hU, -, -, -, h3⟩ :=
            Update_shape p m0 m1 rest ch fi ae err m
          exact ⟨⟨n0 :: n1 :: rest, ch', fi', ae, err'⟩,
            by simp only [Confirmation.step, hU, Option.map_some'], n0, n1, rfl,
            hae, h3 hae hfi⟩
        | setAllowEdit b =>
          cases b with
          | true => exact absurd rfl he
          | false => exact ⟨_, rfl, m0, m1, rfl, rfl, hfi⟩)
      evs ⟨l0 :: l1 :: rest, ch, 1, false, err⟩ hev ⟨l0, l1, rfl, rfl, by simp only; omega⟩
    obtain ⟨c', hrun, -, -, -, hae, hfi⟩ := key
    exact ⟨c', hrun, hae, hfi⟩

/-- C3, at an instance: three Up presses from the initial focus on a three-row
summary, editing never allowed. -/
theorem no_edit_focus_stays_nonneg_witness :
    (∀ e ∈ [Event.msg keyUp, Event.msg keyUp, Event.msg keyUp],
      e ≠ Event.setAllowEdit true) ∧
    ∃ c', Confirmation.run specPkg
        ⟨[⟨["a", "b", "c"], -1, ""⟩, ⟨["Yes", "No"], 1, ""⟩], "", 1, false, none⟩
        [Event.msg keyUp, Event.msg keyUp, Event.msg keyUp] = some c' ∧
      c'.allowEdit = false ∧ 0 ≤ c'.focusIndex :=
  ⟨by decide,
   (no_edit_focus_stays_nonneg specPkg ⟨["a", "b", "c"], -1, ""⟩ ⟨["Yes", "No"], 1, ""⟩
      []).2 "" none _ (by decide)⟩

/-- C4. Failure signals terminate and are stored, whatever the state (any focus
index, any allow-edit flag, any lists): the interrupt key stores the
cancellation error `exitError` and returns quit; a message that is an error
value stores that error and returns quit; `getError` then returns the stored
error.  Nothing else of the state changes. -/
theorem failure_signals_stored_and_quit (p : Pkg L) (c : Confirmation L) :
    (∀ (r : List Char) (a : Bool),
      Confirmation.Update p c (Msg.key ⟨KeyType.KeyCtrlC, r, a⟩) =
        some ({ c with err := some p.exitError }, Cmd.Quit) ∧
      Confirmation.getError { c with err := some p.exitError } = some p.exitError) ∧
    (∀ e : GoError,
      Confirmation.Update p c (Msg.error e) = some ({ c with err := some e }, Cmd.Quit) ∧
      Confirmation.getError { c with err := some e } = some e) :=
  ⟨fun r a => ⟨Update_ctrlC p c r a, rfl⟩, fun e => ⟨Update_error p c e, rfl⟩⟩

/-- C5. Crossing from 0 to -1 with Up: with editing allowed, focus index 0 and
a summary list of `N ≥ 1` rows, an Up press returns no command, sets the focus
index to -1, leaves the yes/no list as `Select(-1)` made it, and leaves the
summary list as `Select(N)` followed by the forwarded Up press made it.  For
every child widget in which `Select(i)` makes `i` the highlighted row and an Up
press moves a highlight above row 0 one row up, the yes/no list then has
highlight -1 (none) and the summary list has its last row, `N - 1`,
highlighted. -/
theorem up_crossing_into_summary (p : Pkg L) (c : Confirmation L) (l0 l1 : L)
    (rest : List L) (r : List Char) (a : Bool) (h : c.lists = l0 :: l1 :: rest)
    (hae : c.allowEdit = true) (hfi : c.focusIndex = 0) (hN : 1 ≤ p.Items l0) :
    Confirmation.Update p c (Msg.key ⟨KeyType.KeyUp, r, a⟩) =
      some ({ c with
              focusIndex := -1
              lists := p.Update (Msg.key ⟨KeyType.KeyUp, r, a⟩)
                  (p.Select (p.Items l0 : Int) l0) :: p.Select (-1) l1 :: rest },
        Cmd.nil) ∧
    ∀ index : L → Int, (∀ i l, index (p.Select i l) = i) →
      (∀ l, 0 < index l →
        index (p.Update (Msg.key ⟨KeyType.KeyUp, r, a⟩) l) = index l - 1) →
      index (p.Select (-1) l1) = -1 ∧
      index (p.Update (Msg.key ⟨KeyType.KeyUp, r, a⟩) (p.Select (p.Items l0 : Int) l0)) =
        (p.Items l0 : Int) - 1 := by
  rcases c with ⟨lists, ch, fi, ae, err⟩
  simp only at h hae hfi
  subst h hae hfi
  constructor
  · have h1 : (0 : Int) > -(p.Items l0 : Int) ∧ (true = true ∨ (0 : Int) > 0) :=
      ⟨by omega, Or.inl rfl⟩
    have h2 : (0 : Int) - 1 = -1 := by omega
    have h3 : (0 : Int) - 1 < 0 ∧ true = true := ⟨by omega, rfl⟩
    rw [Update_up, if_pos h1, if_pos h2, forward_eq, if_pos h3]
    rfl
  · intro index hsel hup
    refine ⟨hsel _ _, ?_⟩
    rw [hup _ (by rw [hsel]; omega), hsel]

/-- C5, at an instance: a three-row summary, the modelled child widget, the
highlighted row read off its cursor. -/
theorem up_crossing_into_summary_witness :
    Confirmation.Update specPkg
        ⟨[⟨["a", "b", "c"], -1, ""⟩, ⟨["Yes", "No"], 0, ""⟩], "", 0, true, none⟩
        (Msg.key ⟨KeyType.KeyUp, [], false⟩) =
      some (⟨[⟨["a", "b", "c"], 2, ""⟩, ⟨["Yes", "No"], -1, ""⟩], "", -1, true, none⟩,
        Cmd.nil) ∧
    (specPkg.Select (-1) ⟨["Yes", "No"], 0, ""⟩).cursor = -1 ∧
    (specPkg.Update (Msg.key ⟨KeyType.KeyUp, [], false⟩)
      (specPkg.Select 3 ⟨["a", "b", "c"], -1, ""⟩)).cursor = 2 :=
  have key := up_crossing_into_summary specPkg
    ⟨[⟨["a", "b", "c"], -1, ""⟩, ⟨["Yes", "No"], 0, ""⟩], "", 0, true, none⟩
    ⟨["a", "b", "c"], -1, ""⟩ ⟨["Yes", "No"], 0, ""⟩ [] [] false rfl rfl rfl (by decide)
  ⟨key.1, key.2 SingleSelectList.cursor (fun _ _ => rfl) (fun l hl => by
    show (SingleSelectList.Update _ l).cursor = l.cursor - 1
    simp only [SingleSelectList.Update, hl, if_true])⟩

/-- C6. Crossing from -1 to 0 with Down: with focus index -1 and a yes/no list
of at least one row (any allow-edit flag), a Down press sets the focus index to
0, leaves the summary list as `Select(-1)` made it and the yes/no list as
`Select(0)` made it, and returns no command.  The resulting lists contain no
application of the child `Update`: the key press is forwarded to neither. -/
theorem down_crossing_into_yes_no (p : Pkg L) (c : Confirmation L) (l0 l1 : L)
    (rest : List L) (r : List Char) (a : Bool) (h : c.lists = l0 :: l1 :: rest)
    (hfi : c.focusIndex = -1) (hM : 1 ≤ p.Items l1) :
    Confirmation.Update p c (Msg.key ⟨KeyType.KeyDown, r, a⟩) =
      some ({ c with focusIndex := 0, lists := p.Select (-1) l0 :: p.Select 0 l1 :: rest },
        Cmd.nil) := by
  rcases c with ⟨lists, ch, fi, ae, err⟩
  simp only at h hfi
  subst h hfi
  have h1 : (-1 : Int) < (p.Items l1 : Int) - 1 := by omega
  rw [Update_down, if_pos h1]
  rfl

/-- C6, at an instance: focus on the last of three summary rows. -/
theorem down_crossing_into_yes_no_witness :
    Confirmation.Update specPkg
        ⟨[⟨["a", "b", "c"], 2, ""⟩, ⟨["Yes", "No"], -1, ""⟩], "", -1, true, none⟩
        (Msg.key ⟨KeyType.KeyDown, [], false⟩) =
      some (⟨[⟨["a", "b", "c"], -1, ""⟩, ⟨["Yes", "No"], 0, ""⟩], "", 0, true, none⟩,
        Cmd.nil) :=
  down_crossing_into_yes_no specPkg
    ⟨[⟨["a", "b", "c"], 2, ""⟩, ⟨["Yes", "No"], -1, ""⟩], "", -1, true, none⟩
    ⟨["a", "b", "c"], 2, ""⟩ ⟨["Yes", "No"], -1, ""⟩ [] [] false rfl rfl (by decide)

/-- C7. Initial state and default answer, with the child widget and the package
values modelled from the spec: `InitializeModel` on a zero-value widget yields
exactly two lists, the summary list first with its highlight cleared to -1 and
the yes/no list second with "No" highlighted, and focus index 1; from that
state one Enter press returns quit and `GetChoice` returns "No". -/
theorem initial_state_and_default_answer (input : QuestionInput) :
    Confirmation.InitializeModel specPkg Confirmation.zero input =
      ⟨[⟨input.IndexedOptions, -1, ""⟩, ⟨["Yes", "No"], 1, ""⟩], "", 1, false, none⟩ ∧
    (∃ yn, (Confirmation.InitializeModel specPkg Confirmation.zero input).lists[1]? =
        some yn ∧ yn.items[yn.cursor.toNat]? = some "No") ∧
    ∃ c', Confirmation.Update specPkg
        (Confirmation.InitializeModel specPkg Confirmation.zero input) keyEnter =
          some (c', Cmd.Quit) ∧
      c'.GetChoice = "No" := by
  have hinit : Confirmation.InitializeModel specPkg Confirmation.zero input =
      ⟨[⟨input.IndexedOptions, -1, ""⟩, ⟨["Yes", "No"], 1, ""⟩], "", 1, false, none⟩ := by
    simp [Confirmation.InitializeModel, Confirmation.zero, specPkg,
      SingleSelectList.InitializeModel, SingleSelectList.Select]
  rw [hinit]
  exact ⟨rfl, ⟨_, rfl, rfl⟩, _, rfl, rfl⟩

/-- C8. The edit path, with the child widget modelled from the spec: for every
non-empty summary list, from focus index 1 with editing allowed, Up then Up
return no command and leave the focus index at -1, and a following Enter returns
quit with the choice equal to the summary list's committed value, which is the
value of the summary list's last row. -/
theorem edit_path_up_up_enter (l0 l1 : SingleSelectList) (rest : List SingleSelectList)
    (ch : String) (err : Option GoError) (hne : l0.items ≠ []) :
    ∃ c1 c2 c3 m0,
      Confirmation.Update specPkg ⟨l0 :: l1 :: rest, ch, 1, true, err⟩ keyUp =
        some (c1, Cmd.nil) ∧
      c1.focusIndex = 0 ∧
      Confirmation.Update specPkg c1 keyUp = some (c2, Cmd.nil) ∧
      c2.focusIndex = -1 ∧
      Confirmation.Update specPkg c2 keyEnter = some (c3, Cmd.Quit) ∧
      c3.lists[0]? = some m0 ∧
      c3.GetChoice = SingleSelectList.GetChoice m0 ∧
      some c3.GetChoice = l0.items.getLast? := by
  have hpos : 0 < l0.items.length := List.length_pos.mpr hne
  have hN : (1 : Int) > -(specPkg.Items l0 : Int) ∧ (true = true ∨ (1 : Int) > 0) :=
    ⟨by have : (0 : Int) ≤ (specPkg.Items l0 : Int) := Int.ofNat_nonneg _
        omega, Or.inl rfl⟩
  have hN0 : (0 : Int) > -(specPkg.Items l0 : Int) ∧ (true = true ∨ (0 : Int) > 0) :=
    ⟨by show (0 : Int) > -((l0.items.length : Nat) : Int)
        omega, Or.inl rfl⟩
  have e1 : Confirmation.Update specPkg ⟨l0 :: l1 :: rest, ch, 1, true, err⟩ keyUp =
      some (⟨l0 :: specPkg.Update keyUp l1 :: rest, ch, 0, true, err⟩, Cmd.nil) := by
    unfold keyUp
    rw [Update_up, if_pos hN, if_neg (by decide), forward_eq, if_neg (by decide)]
    rfl
  have e2 : Confirmation.Update specPkg
      ⟨l0 :: specPkg.Update keyUp l1 :: rest, ch, 0, true, err⟩ keyUp =
      some (⟨specPkg.Update keyUp (specPkg.Select (specPkg.Items l0 : Int) l0) ::
        specPkg.Select (-1) (specPkg.Update keyUp l1) :: rest, ch, -1, true, err⟩,
        Cmd.nil) := by
    unfold keyUp
    rw [Update_up, if_pos hN0, if_pos (by decide), forward_eq, if_pos (by decide)]
    rfl
  have hsum : specPkg.Update keyUp (specPkg.Select (specPkg.Items l0 : Int) l0) =
      ⟨l0.items, (l0.items.length : Int) - 1, l0.choice⟩ := by
    show SingleSelectList.Update keyUp (SingleSelectList.Select (l0.items.length : Int) l0) = _
    have : (0 : Int) < (l0.items.length : Int) := by omega
    simp only [SingleSelectList.Update, SingleSelectList.Select, keyUp, this, if_true]
  obtain ⟨v, hv⟩ : ∃ v, l0.items.getLast? = some v := by
    cases hl : l0.items.getLast? with
    | none => exact absurd (List.getLast?_eq_none_iff.mp hl) hne
    | some v => exact ⟨v, rfl⟩
  have hcommit : specPkg.selectItem ⟨l0.items, (l0.items.length : Int) - 1, l0.choice⟩ =
      ⟨l0.items, (l0.items.length : Int) - 1, v⟩ := by
    show SingleSelectList.selectItem _ = _
    have h0 : (0 : Int) ≤ (l0.items.length : Int) - 1 := by omega
    simp only [SingleSelectList.selectItem, h0, if_true, getElem?_length_sub_one _ hne, hv]
  have e3 : Confirmation.Update specPkg
      ⟨specPkg.Update keyUp (specPkg.Select (specPkg.Items l0 : Int) l0) ::
        specPkg.Select (-1) (specPkg.Update keyUp l1) :: rest, ch, -1, true, err⟩ keyEnter =
      some (⟨⟨l0.items, (l0.items.length : Int) - 1, v⟩ ::
        specPkg.Select (-1) (specPkg.Update keyUp l1) :: rest, v, -1, true, err⟩,
        Cmd.Quit) := by
    unfold keyEnter
    rw [Update_enter, if_pos (by decide), hsum, hcommit]
    rfl
  exact ⟨_, _, _, _, e1, rfl, e2, rfl, e3, rfl, rfl, hv.symm⟩

/-- C8, at an instance: a three-row summary. -/
theorem edit_path_up_up_enter_witness :
    (["a", "b", "c"] : List String) ≠ [] ∧
    ∃ c1 c2 c3 m0,
      Confirmation.Update specPkg
        ⟨[⟨["a", "b", "c"], -1, ""⟩, ⟨["Yes", "No"], 1, ""⟩], "", 1, true, none⟩ keyUp =
        some (c1, Cmd.nil) ∧
      c1.focusIndex = 0 ∧
      Confirmation.Update specPkg c1 keyUp = some (c2, Cmd.nil) ∧
      c2.focusIndex = -1 ∧
      Confirmation.Update specPkg c2 keyEnter = some (c3, Cmd.Quit) ∧
      c3.lists[0]? = some m0 ∧
      c3.GetChoice = SingleSelectList.GetChoice m0 ∧
      some c3.GetChoice = some "c" :=
  ⟨by decide,
   edit_path_up_up_enter ⟨["a", "b", "c"], -1, ""⟩ ⟨["Yes", "No"], 1, ""⟩ [] "" none
    (by decide)⟩

/-- C9. Message forwarding.  A message that is not the interrupt key, not Enter
and not an error makes `Update` return; unless it is a Down press that leaves
the focus index at 0, the command is nil, choice and stored error are unchanged,
and the message is handed to exactly one child: with `m0`, `m1` the two lists
after the key adjustment (`Select(N)` and `Select(-1)` applied when an Up press
leaves the focus index at -1, the lists as they were otherwise), the result
holds `Update msg m0` and `m1` when the adjusted focus index is negative and
editing is allowed, and `m0` and `Update msg m1` otherwise.  A message that is
not a key press leaves focus index, choice and stored error unchanged. -/
theorem forwards_to_focused_list (p : Pkg L) (c : Confirmation L) (l0 l1 : L)
    (rest : List L) (msg : Msg) (h : c.lists = l0 :: l1 :: rest)
    (hC : msg.keyKind ≠ some KeyType.KeyCtrlC) (hE : msg.keyKind ≠ some KeyType.KeyEnter)
    (hErr : ∀ e, msg ≠ Msg.error e) :
    ∃ c' cmd, Confirmation.Update p c msg = some (c', cmd) ∧
      c'.allowEdit = c.allowEdit ∧
      (¬ (msg.keyKind = some KeyType.KeyDown ∧ c'.focusIndex = 0) →
        cmd = Cmd.nil ∧ c'.choice = c.choice ∧ c'.err = c.err ∧
        ∃ m0 m1,
          (if msg.keyKind = some KeyType.KeyUp ∧ c'.focusIndex = -1 then
            m0 = p.Select (p.Items l0 : Int) l0 ∧ m1 = p.Select (-1) l1
           else m0 = l0 ∧ m1 = l1) ∧
          (c'.focusIndex < 0 ∧ c.allowEdit = true →
            c'.lists = p.Update msg m0 :: m1 :: rest) ∧
          (¬ (c'.focusIndex < 0 ∧ c.allowEdit = true) →
            c'.lists = m0 :: p.Update msg m1 :: rest)) ∧
      (msg.keyKind = none → c'.focusIndex = c.focusIndex) := by
  rcases c with ⟨lists, ch, fi, ae, err⟩
  simp only at h
  subst h
  rcases msg with ⟨t, r, a⟩ | e | n
  · cases t with
    | KeyCtrlC => exact absurd rfl hC
    | KeyEnter => exact absurd rfl hE
    | KeyUp =>
      have hkind : (Msg.key ⟨KeyType.KeyUp, r, a⟩).keyKind = some KeyType.KeyUp := rfl
      rw [Update_up]
      split_ifs with h1 h2 h3
      · rw [forward_eq]
        refine ⟨_, _, rfl, rfl, fun _ => ⟨rfl, rfl, rfl, p.Select (p.Items l0 : Int) l0,
          p.Select (-1) l1, ?_, ?_, ?_⟩, fun hk => nomatch hk⟩
        · rw [if_pos ⟨hkind, h2⟩]; exact ⟨rfl, rfl⟩
        · intro hc; simp only [if_pos hc]
        · intro hc; simp only [if_neg hc]
      · rw [forward_eq]
        refine ⟨_, _, rfl, rfl, fun _ => ⟨rfl, rfl, rfl, l0, l1, ?_, ?_, ?_⟩,
          fun hk => nomatch hk⟩
        · rw [if_neg (fun hc => h2 hc.2)]; exact ⟨rfl, rfl⟩
        · intro hc; simp only [if_pos hc]
        · intro hc; simp only [if_neg hc]
      · rw [forward_eq]
        refine ⟨_, _, rfl, rfl, fun _ => ⟨rfl, rfl, rfl, p.Select (p.Items l0 : Int) l0,
          p.Select (-1) l1, ?_, ?_, ?_⟩, fun hk => nomatch hk⟩
        · rw [if_pos ⟨hkind, h3⟩]; exact ⟨rfl, rfl⟩
        · intro hc; simp only [if_pos hc]
        · intro hc; simp only [if_neg hc]
      · rw [forward_eq]
        refine ⟨_, _, rfl, rfl, fun _ => ⟨rfl, rfl, rfl, l0, l1, ?_, ?_, ?_⟩,
          fun hk => nomatch hk⟩
        · rw [if_neg (fun hc => h3 hc.2)]; exact ⟨rfl, rfl⟩
        · intro hc; simp only [if_pos hc]
        · intro hc; simp only [if_neg hc]
    | KeyDown =>
      have hkind : (Msg.key ⟨KeyType.KeyDown, r, a⟩).keyKind = some KeyType.KeyDown := rfl
      have hnup : ∀ x : Int, ¬ ((Msg.key ⟨KeyType.KeyDown, r, a⟩).keyKind =
          some KeyType.KeyUp ∧ x = -1) := fun x hc => nomatch hc.1
      rw [Update_down]
      split_ifs with h1 h2 h3
      · exact ⟨_, _, rfl, rfl, fun hn => absurd ⟨hkind, h2⟩ hn, fun hk => nomatch hk⟩
      · rw [forward_eq]
        refine ⟨_, _, rfl, rfl, fun _ => ⟨rfl, rfl, rfl, l0, l1, ?_, ?_, ?_⟩,
          fun hk => nomatch hk⟩
        · rw [if_neg (hnup _)]; exact ⟨rfl, rfl⟩
        · intro hc; simp only [if_pos hc]
        · intro hc; simp only [if_neg hc]
      · exact ⟨_, _, rfl, rfl, fun hn => absurd ⟨hkind, h3⟩ hn, fun hk => nomatch hk⟩
      · rw [forward_eq]
        refine ⟨_, _, rfl, rfl, fun _ => ⟨rfl, rfl, rfl, l0, l1, ?_, ?_, ?_⟩,
          fun hk => nomatch hk⟩
        · rw [if_neg (hnup _)]; exact ⟨rfl, rfl⟩
        · intro hc; simp only [if_pos hc]
        · intro hc; simp only [if_neg hc]
    | KeyOther code =>
      rw [Update_keyOther, forward_eq]
      refine ⟨_, _, rfl, rfl, fun _ => ⟨rfl, rfl, rfl, l0, l1, ?_, ?_, ?_⟩, fun _ => rfl⟩
      · rw [if_neg (fun hc => nomatch hc.1)]; exact ⟨rfl, rfl⟩
      · intro hc; simp only [if_pos hc]
      · intro hc; simp only [if_neg hc]
  · exact absurd rfl (hErr e)
  · rw [Update_other, forward_eq]
    refine ⟨_, _, rfl, rfl, fun _ => ⟨rfl, rfl, rfl, l0, l1, ?_, ?_, ?_⟩, fun _ => rfl⟩
    · rw [if_neg (fun hc => nomatch hc.1)]; exact ⟨rfl, rfl⟩
    · intro hc; simp only [if_pos hc]
    · intro hc; simp only [if_neg hc]

/-- C9, at an instance: an Up press at focus index -2 of a three-row summary,
editing allowed, which the summary list receives. -/
theorem forwards_to_focused_list_witness :
    (keyUp.keyKind ≠ some KeyType.KeyCtrlC ∧ keyUp.keyKind ≠ some KeyType.KeyEnter ∧
      ∀ e, keyUp ≠ Msg.error e) ∧
    ∃ c' cmd, Confirmation.Update specPkg
        ⟨[⟨["a", "b", "c"], 1, ""⟩, ⟨["Yes", "No"], -1, ""⟩], "", -2, true, none⟩ keyUp =
          some (c', cmd) ∧
      c'.allowEdit = true ∧
      (¬ (keyUp.keyKind = some KeyType.KeyDown ∧ c'.focusIndex = 0) →
        cmd = Cmd.nil ∧ c'.choice = "" ∧ c'.err = none ∧
        ∃ m0 m1,
          (if keyUp.keyKind = some KeyType.KeyUp ∧ c'.focusIndex = -1 then
            m0 = specPkg.Select 3 ⟨["a", "b", "c"], 1, ""⟩ ∧
            m1 = specPkg.Select (-1) ⟨["Yes", "No"], -1, ""⟩
           else m0 = ⟨["a", "b", "c"], 1, ""⟩ ∧ m1 = ⟨["Yes", "No"], -1, ""⟩) ∧
          (c'.focusIndex < 0 ∧ true = true →
            c'.lists = [specPkg.Update keyUp m0, m1]) ∧
          (¬ (c'.focusIndex < 0 ∧ true = true) →
            c'.lists = [m0, specPkg.Update keyUp m1])) ∧
      (keyUp.keyKind = none → c'.focusIndex = -2) :=
  ⟨⟨by decide, by decide, fun e he => nomatch he⟩,
   forwards_to_focused_list specPkg
    ⟨[⟨["a", "b", "c"], 1, ""⟩, ⟨["Yes", "No"], -1, ""⟩], "", -2, true, none⟩
    ⟨["a", "b", "c"], 1, ""⟩ ⟨["Yes", "No"], -1, ""⟩ [] keyUp rfl (by decide) (by decide)
    (fun e he => nomatch he)⟩

/-- C10. Up and Down undo each other on the focus index.  With editing allowed,
child lists that keep their row counts (`N` summary rows, `M` yes/no rows) and
a focus index in `[-N, M-1]`: an Up press returns, and if it changed the focus
index, a Down press right after it returns and restores the focus index; a Down
press returns, and if it changed the focus index, an Up press right after it
returns and restores the focus index. -/
theorem up_down_mutually_inverse (p : Pkg L) (c : Confirmation L) (l0 l1 : L)
    (rest : List L) (r r' : List Char) (a a' : Bool) (hk : p.KeepsItems)
    (h : c.lists = l0 :: l1 :: rest) (hae : c.allowEdit = true)
    (hlo : -(p.Items l0 : Int) ≤ c.focusIndex)
    (hhi : c.focusIndex ≤ (p.Items l1 : Int) - 1) :
    (∃ c1 cmd1, Confirmation.Update p c (Msg.key ⟨KeyType.KeyUp, r, a⟩) = some (c1, cmd1) ∧
      (c1.focusIndex ≠ c.focusIndex →
        ∃ c2 cmd2, Confirmation.Update p c1 (Msg.key ⟨KeyType.KeyDown, r', a'⟩) =
            some (c2, cmd2) ∧
          c2.focusIndex = c.focusIndex)) ∧
    (∃ c1 cmd1, Confirmation.Update p c (Msg.key ⟨KeyType.KeyDown, r, a⟩) =
        some (c1, cmd1) ∧
      (c1.focusIndex ≠ c.focusIndex →
        ∃ c2 cmd2, Confirmation.Update p c1 (Msg.key ⟨KeyType.KeyUp, r', a'⟩) =
            some (c2, cmd2) ∧
          c2.focusIndex = c.focusIndex)) := by
  rcases c with ⟨lists, ch, fi, ae, err⟩
  simp only at h hae hlo hhi
  subst h hae
  constructor
  · obtain ⟨m0, m1, cmd1, hU, hit⟩ := Update_up_focus p l0 l1 rest ch fi true err r a
    obtain ⟨i0, i1⟩ := hit hk
    refine ⟨_, _, hU, fun hne => ?_⟩
    obtain ⟨n0, n1, cmd2, hD, -⟩ := Update_down_focus p m0 m1 rest ch
      (if fi > -(p.Items l0 : Int) ∧ (true = true ∨ fi > 0) then fi - 1 else fi) true err r' a'
    refine ⟨_, _, hD, ?_⟩
    simp only at hne ⊢
    rw [i1]
    split_ifs at hne ⊢ <;> omega
  · obtain ⟨m0, m1, cmd1, hD, hit⟩ := Update_down_focus p l0 l1 rest ch fi true err r a
    obtain ⟨i0, i1⟩ := hit hk
    refine ⟨_, _, hD, fun hne => ?_⟩
    obtain ⟨n0, n1, cmd2, hU, -⟩ := Update_up_focus p m0 m1 rest ch
      (if fi < (p.Items l1 : Int) - 1 then fi + 1 else fi) true err r' a'
    refine ⟨_, _, hU, ?_⟩
    simp only at hne ⊢
    rw [i0]
    split_ifs at hne ⊢ with h1 h2 h2
    · omega
    · exact absurd ⟨by omega, Or.inl trivial⟩ h2
    · omega
    · omega

/-- C10, at an instance: focus index 0 between a three-row summary and the
yes/no list, where both Up and Down move the focus. -/
theorem up_down_mutually_inverse_witness :
    (specPkg.KeepsItems ∧ (-3 : Int) ≤ 0 ∧ (0 : Int) ≤ 2 - 1) ∧
    (∃ c1 cmd1, Confirmation.Update specPkg
        ⟨[⟨["a", "b", "c"], -1, ""⟩, ⟨["Yes", "No"], 0, ""⟩], "", 0, true, none⟩
        (Msg.key ⟨KeyType.KeyUp, [], false⟩) = some (c1, cmd1) ∧
      (c1.focusIndex ≠ 0 →
        ∃ c2 cmd2, Confirmation.Update specPkg c1 (Msg.key ⟨KeyType.KeyDown, [], false⟩) =
            some (c2, cmd2) ∧
          c2.focusIndex = 0)) ∧
    (∃ c1 cmd1, Confirmation.Update specPkg
        ⟨[⟨["a", "b", "c"], -1, ""⟩, ⟨["Yes", "No"], 0, ""⟩], "", 0, true, none⟩
        (Msg.key ⟨KeyType.KeyDown, [], false⟩) = some (c1, cmd1) ∧
      (c1.focusIndex ≠ 0 →
        ∃ c2 cmd2, Confirmation.Update specPkg c1 (Msg.key ⟨KeyType.KeyUp, [], false⟩) =
            some (c2, cmd2) ∧
          c2.focusIndex = 0)) :=
  ⟨⟨specPkg_keepsItems, by decide, by decide⟩,
   up_down_mutually_inverse specPkg
    ⟨[⟨["a", "b", "c"], -1, ""⟩, ⟨["Yes", "No"], 0, ""⟩], "", 0, true, none⟩
    ⟨["a", "b", "c"], -1, ""⟩ ⟨["Yes", "No"], 0, ""⟩ [] [] [] false false
    specPkg_keepsItems rfl rfl (by decide) (by decide)⟩

end questionModel
